import Mathlib

/-!
Verification of the VPIR core against its specification.

The Go sources are shallowly embedded: byte slices become `List ℕ`
(each entry a byte value), field elements of GF(2^128) become naturals
below 2^128 with XOR as addition, `uint32`/`uint64` arithmetic becomes
natural-number arithmetic with explicit `% 2^32` / `% 2^64` where the
machine width matters, and Go functions returning `(value, error)`
become `Except String` values (with a dedicated constructor for runtime
panics where the code can panic).
-/

namespace VPIR

/-! ## Database padding (`lib/database`: `PadBlock`, `UnPadBlock`) -/

/-- Embedding of `PadBlock` from `lib/database`: append `0x80`, then
`blockLen - (len(block) % blockLen)` zero bytes.  Note that when the
length after appending `0x80` is already a multiple of `blockLen`, a
full run of `blockLen` zeros is appended. -/
def PadBlock (block : List ℕ) (blockLen : ℕ) : List ℕ :=
  let b := block ++ [0x80]
  b ++ List.replicate (blockLen - b.length % blockLen) 0

/-- Embedding of `UnPadBlock` from `lib/database`: drop the trailing
zero bytes (`bytes.TrimRightFunc`), then drop the final byte (the
`0x80` marker).  The Go code slices `block[:len(block)-1]`, which
panics on an empty slice; the embedding returns `[]` there instead,
a case none of the verified claims reaches (padded blocks always
contain the nonzero byte `0x80`). -/
def UnPadBlock (block : List ℕ) : List ℕ :=
  let trimmed := (block.reverse.dropWhile (fun b => b == 0)).reverse
  trimmed.take (trimmed.length - 1)

lemma dropWhile_replicate_append (p : ℕ → Bool) (z : ℕ) (a : ℕ) (l : List ℕ)
    (h : p a = true) :
    List.dropWhile p (List.replicate z a ++ l) = List.dropWhile p l := by
  induction z with
  | zero => simp
  | succ n ih => simpa [List.replicate_succ, List.dropWhile, h] using ih

lemma trim_PadBlock (b : List ℕ) (n : ℕ) :
    ((PadBlock b n).reverse.dropWhile (fun x => x == 0)).reverse = b ++ [0x80] := by
  unfold PadBlock
  simp only [List.reverse_append, List.reverse_replicate]
  rw [dropWhile_replicate_append (fun x => x == 0) _ 0 _ (by decide)]
  simp [List.dropWhile]

/-- C6: `UnPadBlock (PadBlock b n) = b` for every byte sequence `b` and
every block length `n ≥ 1` (the round-trip property; it in fact does not
even need `n ≥ 1` in the embedding, but the claim assumes it). -/
theorem unPad_pad_roundtrip (b : List ℕ) (n : ℕ) (hn : 1 ≤ n) :
    UnPadBlock (PadBlock b n) = b := by
  unfold UnPadBlock
  rw [trim_PadBlock]
  simp

/-- C6 witness: the round trip at the concrete block `[1, 2, 0]` with
block length `4`. -/
theorem unPad_pad_roundtrip_witness :
    1 ≤ 4 ∧ UnPadBlock (PadBlock [1, 2, 0] 4) = [1, 2, 0] :=
  ⟨by decide, unPad_pad_roundtrip [1, 2, 0] 4 (by decide)⟩

/-- `L` is the least multiple of `n` strictly greater than `m` (the
bounded quantifier keeps the predicate decidable). -/
def isLeastMultipleGT (n m L : ℕ) : Prop :=
  L % n = 0 ∧ m < L ∧ ∀ K < L, K % n = 0 → K ≤ m

instance (n m L : ℕ) : Decidable (isLeastMultipleGT n m L) := by
  unfold isLeastMultipleGT; infer_instance

/-- C10 counterexample: for `b = [5]` and `n = 2` the padded block is
`[5, 0x80, 0, 0]` of length 4, yet the least multiple of `2` strictly
greater than `len b = 1` is `2`, not `4`: the claim that the padded
length is the smallest multiple of `n` strictly greater than `len b`
is false (it contradicts the claim's own `len(b)+1+n` clause). -/
theorem padBlock_length_not_leastGT_len :
    (PadBlock [5] 2).length = 4 ∧ ¬ isLeastMultipleGT 2 (List.length [5]) 4 := by
  decide

/-- C10 (amended): `PadBlock b n` is `b ++ [0x80] ++ zeros` with at
least one and at most `n` zero bytes, its length is the smallest
multiple of `n` strictly greater than `len b + 1` (not `len b`), and
when `n` divides `len b + 1` a full extra run of `n` zeros is appended
so the padded length is `len b + 1 + n`. -/
theorem padBlock_structure (b : List ℕ) (n : ℕ) (hn : 1 ≤ n) :
    PadBlock b n = b ++ [0x80] ++ List.replicate (n - (b.length + 1) % n) 0
    ∧ 1 ≤ n - (b.length + 1) % n
    ∧ n - (b.length + 1) % n ≤ n
    ∧ isLeastMultipleGT n (b.length + 1) ((PadBlock b n).length)
    ∧ (n ∣ b.length + 1 → (PadBlock b n).length = b.length + 1 + n) := by
  have hlen : (PadBlock b n).length = (b.length + 1) + (n - (b.length + 1) % n) := by
    simp [PadBlock]
    omega
  have hmod : (b.length + 1) % n < n := Nat.mod_lt _ (by omega)
  have hdiv : n * ((b.length + 1) / n) + (b.length + 1) % n = b.length + 1 :=
    Nat.div_add_mod _ _
  have hexp : n * ((b.length + 1) / n + 1) = n * ((b.length + 1) / n) + n := by ring
  have hlen' : (PadBlock b n).length = n * ((b.length + 1) / n + 1) := by omega
  refine ⟨by simp [PadBlock], by omega, by omega, ⟨?_, by omega, ?_⟩, ?_⟩
  · -- the padded length is a multiple of n
    rw [hlen']
    exact Nat.mul_mod_right _ _
  · -- minimality among multiples of n
    intro K hK hKmod
    rcases Nat.dvd_of_mod_eq_zero hKmod with ⟨t, rfl⟩
    have hKlt : n * t < n * ((b.length + 1) / n + 1) := by omega
    have ht : t ≤ (b.length + 1) / n := by
      have := Nat.lt_of_mul_lt_mul_left hKlt
      omega
    have : n * t ≤ n * ((b.length + 1) / n) := Nat.mul_le_mul_left _ ht
    omega
  · rintro ⟨t, ht⟩
    have : (b.length + 1) % n = 0 := by rw [ht]; exact Nat.mul_mod_right _ _
    omega

/-- C10 witness: the amended structure at `b = [7]`, `n = 2` (the
`len(b)+1` already a multiple of `n` case: padded length `1 + 1 + 2`). -/
theorem padBlock_structure_witness :
    1 ≤ 2 ∧
    (PadBlock [7] 2 = [7] ++ [0x80] ++ List.replicate (2 - (1 + 1) % 2) 0
    ∧ 1 ≤ 2 - (1 + 1) % 2
    ∧ 2 - (1 + 1) % 2 ≤ 2
    ∧ isLeastMultipleGT 2 (1 + 1) ((PadBlock [7] 2).length)
    ∧ (2 ∣ 1 + 1 → (PadBlock [7] 2).length = 1 + 1 + 2)) :=
  ⟨by decide, padBlock_structure [7] 2 (by decide)⟩

/-! ## GF(2^128) and the information-theoretic single-bit client
(`lib/client`: `ITSingleGF`)

Modelled from the spec: the `lib/field` package is not among the
sources, so GF(2^128) elements are modelled as naturals (below `2^128`
in the implementation), with addition = XOR; in characteristic 2,
negation is the identity.  Only addition, negation, zero, one and
equality are used by the IT client. -/

/-- Modelled from the spec: GF(2^128) addition is XOR. -/
def gf128Add (a b : ℕ) : ℕ := a ^^^ b

/-- Modelled from the spec: GF(2^128) has characteristic 2, so
`Element.Neg` is the identity. -/
def gf128Neg (a : ℕ) : ℕ := a

/-- Modelled from the spec: the constant `constants.Zero`. -/
def gf128Zero : ℕ := 0

/-- Modelled from the spec: the constant `constants.One`. -/
def gf128One : ℕ := 1

namespace ITSingleGF

/-- The entry at position `i` of server `k`'s share vector in
`ITSingleGF.secretSharing` (`lib/client`): for the first
`numServers - 1` servers it is the random field element
`rand (dbLength*k + i)`; for the last server it is the negated sum of
the others' entries, with `alpha` added when `i` is the retrieval
coordinate `ix`. -/
def shareEntry (dbLength numServers ix alpha : ℕ) (rand : ℕ → ℕ)
    (k i : ℕ) : ℕ :=
  if k < numServers - 1 then rand (dbLength * k + i)
  else
    let sum := (List.range (numServers - 1)).foldl
      (fun acc t => gf128Add acc (rand (dbLength * t + i))) gf128Zero
    let entry := gf128Neg sum
    if i = ix then gf128Add entry alpha else entry

/-- Embedding of `ITSingleGF.secretSharing` (`lib/client`), with the
client state `(dbLength, ix, alpha)` and the stream of random field
elements drawn from the XOF passed explicitly (entry `j` of
`field.RandomVector` becomes `rand j`). -/
def secretSharing (dbLength numServers ix alpha : ℕ) (rand : ℕ → ℕ) :
    List (List ℕ) :=
  (List.range numServers).map (fun k =>
    (List.range dbLength).map (shareEntry dbLength numServers ix alpha rand k))

lemma getD_map_range (d i : ℕ) (f : ℕ → ℕ) (hi : i < d) :
    ((List.range d).map f).getD i 0 = f i := by
  rw [List.getD_eq_getElem?_getD, List.getElem?_map, List.getElem?_range hi]
  rfl

/-- C2: for every database length `d ≥ 1`, retrieval coordinate
`ix < d`, and number of servers `k ≥ 1`, the `k` query vectors produced
by `secretSharing` sum position-wise, in GF(2^128), to the vector that
is `alpha` at position `ix` and zero at every other position. -/
theorem secretSharing_additivity (dbLength numServers ix alpha : ℕ)
    (rand : ℕ → ℕ) (hServers : 1 ≤ numServers) (hix : ix < dbLength) :
    ∀ i, i < dbLength →
      (secretSharing dbLength numServers ix alpha rand).foldl
          (fun acc v => gf128Add acc (v.getD i 0)) gf128Zero
        = if i = ix then alpha else gf128Zero := by
  intro i hi
  obtain ⟨m, rfl⟩ : ∃ m, numServers = m + 1 := ⟨numServers - 1, by omega⟩
  unfold secretSharing
  rw [List.foldl_map, List.range_succ, List.foldl_append]
  have hEntry : ∀ k,
      ((List.range dbLength).map
        (shareEntry dbLength (m + 1) ix alpha rand k)).getD i 0
      = shareEntry dbLength (m + 1) ix alpha rand k i :=
    fun k => getD_map_range dbLength i _ hi
  have hpref :
      (List.range m).foldl (fun acc k => gf128Add acc
        (((List.range dbLength).map
          (shareEntry dbLength (m + 1) ix alpha rand k)).getD i 0)) gf128Zero
      = (List.range m).foldl
          (fun acc t => gf128Add acc (rand (dbLength * t + i))) gf128Zero := by
    apply List.foldl_ext
    intro acc k hk
    rw [hEntry k]
    have hkm : k < m := List.mem_range.mp hk
    simp [shareEntry, hkm]
  rw [List.foldl_cons, List.foldl_nil, hpref, hEntry m]
  have hlast : shareEntry dbLength (m + 1) ix alpha rand m i
      = gf128Add ((List.range m).foldl
          (fun acc t => gf128Add acc (rand (dbLength * t + i))) gf128Zero)
          (if i = ix then alpha else gf128Zero) := by
    simp only [shareEntry, Nat.add_sub_cancel, Nat.lt_irrefl, if_false, gf128Neg]
    by_cases hix' : i = ix
    · simp [hix']
    · simp [hix', gf128Add, gf128Zero]
  rw [hlast]
  simp only [gf128Add, gf128Zero]
  rw [← Nat.xor_assoc, Nat.xor_self, Nat.zero_xor]

/-- C2 witness: three servers, database length 3, retrieval index 1,
`alpha = 9`, with an arbitrary concrete randomness stream. -/
theorem secretSharing_additivity_witness :
    (1 ≤ 3 ∧ 1 < 3) ∧
    ∀ i, i < 3 →
      (secretSharing 3 3 1 9 (fun j => 5 * j + 7)).foldl
          (fun acc v => gf128Add acc (v.getD i 0)) gf128Zero
        = if i = 1 then 9 else gf128Zero :=
  ⟨by decide, secretSharing_additivity 3 3 1 9 (fun j => 5 * j + 7)
    (by decide) (by decide)⟩

/-- The position-wise sum (in GF(2^128)) of the server answers, as
computed by the loop in `ITSingleGF.Reconstruct` (`lib/client`):
`sum[i]` starts at zero and accumulates `answers[s][i]` over all
servers `s`. -/
def itSum (answers : List (List ℕ)) (i : ℕ) : ℕ :=
  answers.foldl (fun acc a => gf128Add acc (a.getD i 0)) gf128Zero

/-- The early-return check of the `Reconstruct` loop: positions are
inspected in order and the loop rejects at the first position whose
sum equals neither the stored `alpha` nor zero. -/
def itCheckLoop (alpha : ℕ) (answers : List (List ℕ)) : List ℕ → Bool
  | [] => true
  | i :: rest =>
    if itSum answers i ≠ alpha ∧ itSum answers i ≠ gf128Zero then false
    else itCheckLoop alpha answers rest

/-- Embedding of `ITSingleGF.Reconstruct` (`lib/client`): sum the
answers position-wise over `answersLen = len(answers[0])` positions,
rejecting any position whose sum is neither `alpha` nor zero; then
inspect position `iy` (rebalanced) or `0` (flat) and return `One` if
it equals `alpha`, `Zero` if it equals zero, and `REJECT!` otherwise. -/
def Reconstruct (rebalanced : Bool) (iy alpha : ℕ)
    (answers : List (List ℕ)) : Except String ℕ :=
  let answersLen := (answers.getD 0 []).length
  if itCheckLoop alpha answers (List.range answersLen) then
    let i := if rebalanced then iy else 0
    if itSum answers i = alpha then .ok gf128One
    else if itSum answers i = gf128Zero then .ok gf128Zero
    else .error "REJECT!"
  else .error "REJECT!"

lemma itCheckLoop_eq_true_iff (alpha : ℕ) (answers : List (List ℕ))
    (l : List ℕ) :
    itCheckLoop alpha answers l = true
      ↔ ∀ i ∈ l, itSum answers i = alpha ∨ itSum answers i = gf128Zero := by
  induction l with
  | nil => simp [itCheckLoop]
  | cons x xs ih =>
    rw [show itCheckLoop alpha answers (x :: xs)
        = if itSum answers x ≠ alpha ∧ itSum answers x ≠ gf128Zero then false
          else itCheckLoop alpha answers xs from rfl]
    by_cases hx : itSum answers x ≠ alpha ∧ itSum answers x ≠ gf128Zero
    · rw [if_pos hx]
      simp only [Bool.false_eq_true, false_iff]
      intro h
      rcases h x (List.mem_cons_self x xs) with h1 | h1
      · exact hx.1 h1
      · exact hx.2 h1
    · rw [if_neg hx, ih]
      have hx' : itSum answers x = alpha ∨ itSum answers x = gf128Zero := by
        tauto
      simp [List.forall_mem_cons, hx']

/-- C5: `ITSingleGF.Reconstruct` sums the answers position-wise in
GF(2^128) and (a) returns the `REJECT!` error whenever some position of
the sum differs from both zero and the stored `alpha`; (b) otherwise it
inspects the position `iy` (rebalanced) or `0` (flat) and returns `One`
when that position's sum equals `alpha`, and `Zero` when it differs
from `alpha` and equals zero. -/
theorem reconstruct_it_spec (rebalanced : Bool) (iy alpha : ℕ)
    (answers : List (List ℕ)) :
    ((∃ i, i < (answers.getD 0 []).length
        ∧ itSum answers i ≠ alpha ∧ itSum answers i ≠ gf128Zero)
      → Reconstruct rebalanced iy alpha answers = .error "REJECT!")
    ∧ ((∀ i, i < (answers.getD 0 []).length
          → itSum answers i = alpha ∨ itSum answers i = gf128Zero)
      → ((itSum answers (if rebalanced then iy else 0) = alpha
            → Reconstruct rebalanced iy alpha answers = .ok gf128One)
        ∧ (itSum answers (if rebalanced then iy else 0) ≠ alpha
            → itSum answers (if rebalanced then iy else 0) = gf128Zero
            → Reconstruct rebalanced iy alpha answers = .ok gf128Zero))) := by
  constructor
  · rintro ⟨i, hi, hbad⟩
    have hfail : itCheckLoop alpha answers
        (List.range (answers.getD 0 []).length) = false := by
      rcases Bool.eq_false_or_eq_true
        (itCheckLoop alpha answers (List.range (answers.getD 0 []).length))
        with h | h
      · rcases (itCheckLoop_eq_true_iff _ _ _).mp h i (List.mem_range.mpr hi)
          with h1 | h1
        · exact (hbad.1 h1).elim
        · exact (hbad.2 h1).elim
      · exact h
    simp only [List.getD_eq_getElem?_getD] at hfail
    simp [Reconstruct, hfail]
  · intro hgood
    have hpass : itCheckLoop alpha answers
        (List.range (answers.getD 0 []).length) = true :=
      (itCheckLoop_eq_true_iff _ _ _).mpr
        (fun i hi => hgood i (List.mem_range.mp hi))
    simp only [List.getD_eq_getElem?_getD] at hpass
    constructor
    · intro hα
      simp [Reconstruct, hpass, hα]
    · intro hα h0
      have hza : gf128Zero ≠ alpha := h0 ▸ hα
      simp [Reconstruct, hpass, hα, h0, hza]

/-- C5 witness: flat representation, `alpha = 5`, two servers whose
answers sum to `(5, 0)`; position 0 carries `alpha`, so the
reconstructed bit is `One`. -/
theorem reconstruct_it_spec_witness :
    Reconstruct false 0 5 [[5, 0], [0, 0]] = .ok gf128One := by
  have h := reconstruct_it_spec false 0 5 [[5, 0], [0, 0]]
  exact (h.2 (by decide)).1 (by decide)

/-- Embedding of `invalidQueryInputs` (`lib/client`), the guard that
makes `ITSingleGF.Query` panic; `dbLength` stands for the constant
`cst.DBLength`, which lives outside the embedded sources.  The Go
source reads `(index < 0 || index > cst.DBLength) && numServers < 1`. -/
def invalidQueryInputs (index numServers dbLength : ℤ) : Bool :=
  (index < 0 || index > dbLength) && numServers < 1

/-- C4 (failing inputs): an out-of-range index presented with a valid
number of servers (`numServers ≥ 1`) is **not** flagged by
`invalidQueryInputs`, so `ITSingleGF.Query` does not panic there,
contradicting the claim (and the guard's own documentation, which says
it returns true whenever the query inputs are invalid): the source
joins the two conditions with `&&` where the intent is `||`.  Both a
negative index and an index beyond `cst.DBLength` are accepted. -/
theorem invalidQueryInputs_missing_panic (dbLength : ℤ) :
    invalidQueryInputs (-1) 2 dbLength = false
    ∧ invalidQueryInputs (dbLength + 1) 2 dbLength = false
    ∧ invalidQueryInputs (-1) 0 dbLength = true := by
  refine ⟨?_, ?_, ?_⟩ <;> simp [invalidQueryInputs]

end ITSingleGF

/-! ## PredicateAPIR reconstruction (`lib/client/predicate_apir.go`)

The F_p field package (`lib/field`) is not among the sources.
Modelled from the spec: `field.ModP` is a fixed 32-bit prime `p`, field
elements are `uint32` values in `[0, p)`, and `field.ConcurrentExecutions`
is a fixed parameter `k` (typically 3; the source comment in
`NewPredicateAPIR` uses 4); both are kept as parameters here.  `uint32`
addition wraps modulo `2^32` and `uint64` products wrap modulo `2^64`,
which the embedding keeps explicit. -/

/-- Go `uint32` addition: wraps modulo `2^32`. -/
def add32 (a b : ℕ) : ℕ := (a + b) % 2 ^ 32

/-- The MAC tag of `predicate_apir.go`: the `uint64` product
`data * alpha` reduced modulo `p`, then cast back to `uint32`
(`tag := uint32(tmp)`). -/
def macTag (p data alpha : ℕ) : ℕ := data * alpha % 2 ^ 64 % p % 2 ^ 32

/-- Result of `PredicateAPIR.Reconstruct`: a reconstructed value, an
error (Go `errors.New`), or a runtime panic (which Go's `uint32`
division by zero raises). -/
inductive RecOut where
  | ok (v : ℕ)
  | err (msg : String)
  | panicked
deriving DecidableEq

/-- The tag-checking loop of the non-AVG branch of
`PredicateAPIR.Reconstruct`: for each index `i` (the Go loop runs
`i = 0 .. ConcurrentExecutions-1`), compare the MAC tag of `data` under
`alphas[i]` with the combined tag `(answers[0][i+1] + answers[1][i+1]) % p`
and return the `REJECT` error at the first mismatch; if all checks pass,
return `data`. -/
def checkTags (p data : ℕ) (alphas a0 a1 : List ℕ) : List ℕ → RecOut
  | [] => .ok data
  | i :: rest =>
    let tag := macTag p data (alphas.getD i 0)
    let reconstructedTag := add32 (a0.getD (i + 1) 0) (a1.getD (i + 1) 0) % p
    if tag ≠ reconstructedTag then .err "REJECT"
    else checkTags p data alphas a0 a1 rest

/-- The tag-checking loop of the AVG branch of
`PredicateAPIR.Reconstruct`: each iteration first checks the count tag
(`REJECT count` on mismatch), then the sum tag (`REJECT sum`); after
the loop the Go code returns `sumCount / dataCount`, which panics when
`dataCount = 0` (uint32 division by zero). -/
def checkTagsAVG (p dataCount sumCount : ℕ)
    (alphas countFirst countSecond sumFirst sumSecond : List ℕ) :
    List ℕ → RecOut
  | [] => if dataCount = 0 then .panicked else .ok (sumCount / dataCount)
  | i :: rest =>
    let tagCount := macTag p dataCount (alphas.getD i 0)
    let reconstructedTagCount :=
      add32 (countFirst.getD (i + 1) 0) (countSecond.getD (i + 1) 0) % p
    if tagCount ≠ reconstructedTagCount then .err "REJECT count"
    else
      let tagSum := macTag p sumCount (alphas.getD i 0)
      let reconstructedTagSum :=
        add32 (sumFirst.getD (i + 1) 0) (sumSecond.getD (i + 1) 0) % p
      if tagSum ≠ reconstructedTagSum then .err "REJECT sum"
      else checkTagsAVG p dataCount sumCount
        alphas countFirst countSecond sumFirst sumSecond rest

/-- Embedding of `PredicateAPIR.Reconstruct`
(`lib/client/predicate_apir.go`): on AVG-shaped answers
(`len(answers[0]) = 2*(1+k)`) it splits each answer into count and sum
halves, reconstructs `dataCount` and `sumCount`, runs the
count/sum tag checks, and finally divides; on any other shape it
reconstructs `data = (answers[0][0] + answers[1][0]) % p` and runs the
plain tag checks.  `p` is `field.ModP` and `kEx` is
`field.ConcurrentExecutions`; `alphas` is the client state written by
the preceding `Query`. -/
def PredicateReconstruct (p kEx : ℕ) (alphas : List ℕ)
    (answers : List (List ℕ)) : RecOut :=
  let a0 := answers.getD 0 []
  let a1 := answers.getD 1 []
  if a0.length = 2 * (1 + kEx) then
    let countFirst := a0.take (1 + kEx)
    let countSecond := a1.take (1 + kEx)
    let sumFirst := a0.drop (1 + kEx)
    let sumSecond := a1.drop (1 + kEx)
    let dataCount := add32 (countFirst.getD 0 0) (countSecond.getD 0 0) % p
    let sumCount := add32 (sumFirst.getD 0 0) (sumSecond.getD 0 0) % p
    checkTagsAVG p dataCount sumCount
      alphas countFirst countSecond sumFirst sumSecond (List.range kEx)
  else
    let data := add32 (a0.getD 0 0) (a1.getD 0 0) % p
    checkTags p data alphas a0 a1 (List.range kEx)

lemma checkTags_ok_iff (p data : ℕ) (alphas a0 a1 : List ℕ) (l : List ℕ) :
    checkTags p data alphas a0 a1 l = .ok data
      ↔ ∀ i ∈ l, macTag p data (alphas.getD i 0)
          = add32 (a0.getD (i + 1) 0) (a1.getD (i + 1) 0) % p := by
  induction l with
  | nil => simp [checkTags]
  | cons x xs ih =>
    rw [show checkTags p data alphas a0 a1 (x :: xs)
        = if macTag p data (alphas.getD x 0)
              ≠ add32 (a0.getD (x + 1) 0) (a1.getD (x + 1) 0) % p
          then .err "REJECT" else checkTags p data alphas a0 a1 xs from rfl]
    by_cases hx : macTag p data (alphas.getD x 0)
        ≠ add32 (a0.getD (x + 1) 0) (a1.getD (x + 1) 0) % p
    · rw [if_pos hx]
      constructor
      · intro h; cases h
      · intro h; exact absurd (h x (List.mem_cons_self x xs)) hx
    · rw [if_neg hx, ih, List.forall_mem_cons]
      have hx' : macTag p data (alphas.getD x 0)
          = add32 (a0.getD (x + 1) 0) (a1.getD (x + 1) 0) % p := by tauto
      exact ⟨fun h => ⟨hx', h⟩, fun h => h.2⟩

lemma checkTags_fail (p data : ℕ) (alphas a0 a1 : List ℕ) (l : List ℕ)
    (h : ∃ i ∈ l, macTag p data (alphas.getD i 0)
        ≠ add32 (a0.getD (i + 1) 0) (a1.getD (i + 1) 0) % p) :
    checkTags p data alphas a0 a1 l = .err "REJECT" := by
  induction l with
  | nil => simp at h
  | cons x xs ih =>
    rw [show checkTags p data alphas a0 a1 (x :: xs)
        = if macTag p data (alphas.getD x 0)
              ≠ add32 (a0.getD (x + 1) 0) (a1.getD (x + 1) 0) % p
          then .err "REJECT" else checkTags p data alphas a0 a1 xs from rfl]
    by_cases hx : macTag p data (alphas.getD x 0)
        ≠ add32 (a0.getD (x + 1) 0) (a1.getD (x + 1) 0) % p
    · rw [if_pos hx]
    · rw [if_neg hx]
      apply ih
      rcases h with ⟨i, hi, hne⟩
      rcases List.mem_cons.mp hi with rfl | hi
      · exact absurd hne hx
      · exact ⟨i, hi, hne⟩

lemma checkTagsAVG_err_msg (p dataCount sumCount : ℕ)
    (alphas c0 c1 s0 s1 : List ℕ) (l : List ℕ) (msg : String)
    (h : checkTagsAVG p dataCount sumCount alphas c0 c1 s0 s1 l = .err msg) :
    msg = "REJECT count" ∨ msg = "REJECT sum" := by
  induction l with
  | nil =>
    rw [show checkTagsAVG p dataCount sumCount alphas c0 c1 s0 s1 []
        = if dataCount = 0 then .panicked else .ok (sumCount / dataCount)
        from rfl] at h
    by_cases h0 : dataCount = 0 <;> simp [h0] at h
  | cons x xs ih =>
    rw [show checkTagsAVG p dataCount sumCount alphas c0 c1 s0 s1 (x :: xs)
        = if macTag p dataCount (alphas.getD x 0)
              ≠ add32 (c0.getD (x + 1) 0) (c1.getD (x + 1) 0) % p
          then .err "REJECT count"
          else if macTag p sumCount (alphas.getD x 0)
              ≠ add32 (s0.getD (x + 1) 0) (s1.getD (x + 1) 0) % p
          then .err "REJECT sum"
          else checkTagsAVG p dataCount sumCount alphas c0 c1 s0 s1 xs
        from rfl] at h
    by_cases h1 : macTag p dataCount (alphas.getD x 0)
        ≠ add32 (c0.getD (x + 1) 0) (c1.getD (x + 1) 0) % p
    · rw [if_pos h1] at h
      exact Or.inl (RecOut.err.inj h).symm
    · rw [if_neg h1] at h
      by_cases h2 : macTag p sumCount (alphas.getD x 0)
          ≠ add32 (s0.getD (x + 1) 0) (s1.getD (x + 1) 0) % p
      · rw [if_pos h2] at h
        exact Or.inr (RecOut.err.inj h).symm
      · rw [if_neg h2] at h
        exact ih h

lemma getD_lt_of_forall_lt (l : List ℕ) (i p : ℕ) (hi : i < l.length)
    (h : ∀ x ∈ l, x < p) : l.getD i 0 < p := by
  rw [List.getD_eq_getElem l 0 hi]
  exact h _ (List.getElem_mem hi)

/-- C1: on a pair of non-AVG-shaped answers (vectors of `1 + k` field
elements), `PredicateAPIR.Reconstruct` computes
`data = (answers[0][0] + answers[1][0]) mod p` and returns it exactly
when every combined tag `(answers[0][i] + answers[1][i]) mod p`
(`i = 1..k`) equals `data * alpha_i mod p` for the `alphas` stored by
`Query`; any failing tag check yields the `REJECT` error, and on
AVG-shaped answers every error distinguishes `REJECT count` from
`REJECT sum`.  The hypotheses `0 < p` and `2 * p ≤ 2^32` record that
the fixed 32-bit prime `field.ModP` permits overflow-free `uint32`
sums of two field elements (which correct reconstruction relies on). -/
theorem predicate_reconstruct_spec (p kEx : ℕ) (alphas a0 a1 : List ℕ)
    (hp : 0 < p) (hov : 2 * p ≤ 2 ^ 32)
    (hlen0 : a0.length = 1 + kEx) (hlen1 : a1.length = 1 + kEx)
    (hel0 : ∀ x ∈ a0, x < p) (hel1 : ∀ x ∈ a1, x < p)
    (halen : alphas.length = kEx) (hal : ∀ x ∈ alphas, x < p) :
    (PredicateReconstruct p kEx alphas [a0, a1]
        = RecOut.ok ((a0.getD 0 0 + a1.getD 0 0) % p)
      ↔ ∀ i < kEx, (a0.getD (i + 1) 0 + a1.getD (i + 1) 0) % p
          = (a0.getD 0 0 + a1.getD 0 0) % p * alphas.getD i 0 % p)
    ∧ ((¬ ∀ i < kEx, (a0.getD (i + 1) 0 + a1.getD (i + 1) 0) % p
          = (a0.getD 0 0 + a1.getD 0 0) % p * alphas.getD i 0 % p)
        → PredicateReconstruct p kEx alphas [a0, a1] = RecOut.err "REJECT")
    ∧ (∀ b0 b1 : List ℕ, b0.length = 2 * (1 + kEx) →
        ∀ msg, PredicateReconstruct p kEx alphas [b0, b1] = RecOut.err msg →
          msg = "REJECT count" ∨ msg = "REJECT sum") := by
  have hshape : ¬ a0.length = 2 * (1 + kEx) := by omega
  have hp32 : p ≤ 2 ^ 31 := by omega
  have hdata_eq : add32 (a0.getD 0 0) (a1.getD 0 0)
      = a0.getD 0 0 + a1.getD 0 0 := by
    have h0 : a0.getD 0 0 < p := getD_lt_of_forall_lt a0 0 p (by omega) hel0
    have h1 : a1.getD 0 0 < p := getD_lt_of_forall_lt a1 0 p (by omega) hel1
    unfold add32
    apply Nat.mod_eq_of_lt
    omega
  have hred0 : PredicateReconstruct p kEx alphas [a0, a1]
      = if a0.length = 2 * (1 + kEx) then
          checkTagsAVG p
            (add32 ((a0.take (1 + kEx)).getD 0 0) ((a1.take (1 + kEx)).getD 0 0) % p)
            (add32 ((a0.drop (1 + kEx)).getD 0 0) ((a1.drop (1 + kEx)).getD 0 0) % p)
            alphas (a0.take (1 + kEx)) (a1.take (1 + kEx))
            (a0.drop (1 + kEx)) (a1.drop (1 + kEx)) (List.range kEx)
        else
          checkTags p (add32 (a0.getD 0 0) (a1.getD 0 0) % p) alphas a0 a1
            (List.range kEx) := rfl
  have hred : PredicateReconstruct p kEx alphas [a0, a1]
      = checkTags p ((a0.getD 0 0 + a1.getD 0 0) % p) alphas a0 a1
          (List.range kEx) := by
    rw [hred0, if_neg hshape, hdata_eq]
  have hdata_lt : (a0.getD 0 0 + a1.getD 0 0) % p < p := Nat.mod_lt _ hp
  have hmac : ∀ i < kEx,
      macTag p ((a0.getD 0 0 + a1.getD 0 0) % p) (alphas.getD i 0)
        = (a0.getD 0 0 + a1.getD 0 0) % p * alphas.getD i 0 % p := by
    intro i hi
    have hα : alphas.getD i 0 < p :=
      getD_lt_of_forall_lt alphas i p (by omega) hal
    have hprod : (a0.getD 0 0 + a1.getD 0 0) % p * alphas.getD i 0 < 2 ^ 64 := by
      have h1 : (a0.getD 0 0 + a1.getD 0 0) % p * alphas.getD i 0 < p * p :=
        Nat.mul_lt_mul_of_lt_of_lt hdata_lt hα
      have h2 : p * p ≤ 2 ^ 31 * 2 ^ 31 := Nat.mul_le_mul hp32 hp32
      calc (a0.getD 0 0 + a1.getD 0 0) % p * alphas.getD i 0
          < p * p := h1
        _ ≤ 2 ^ 31 * 2 ^ 31 := h2
        _ < 2 ^ 64 := by norm_num
    unfold macTag
    rw [Nat.mod_eq_of_lt hprod]
    apply Nat.mod_eq_of_lt
    calc (a0.getD 0 0 + a1.getD 0 0) % p * alphas.getD i 0 % p
        < p := Nat.mod_lt _ hp
      _ ≤ 2 ^ 32 := by omega
  have hadd : ∀ i < kEx,
      add32 (a0.getD (i + 1) 0) (a1.getD (i + 1) 0)
        = a0.getD (i + 1) 0 + a1.getD (i + 1) 0 := by
    intro i hi
    have h0 : a0.getD (i + 1) 0 < p :=
      getD_lt_of_forall_lt a0 (i + 1) p (by omega) hel0
    have h1 : a1.getD (i + 1) 0 < p :=
      getD_lt_of_forall_lt a1 (i + 1) p (by omega) hel1
    unfold add32
    apply Nat.mod_eq_of_lt
    omega
  have hpt : ∀ i < kEx,
      (macTag p ((a0.getD 0 0 + a1.getD 0 0) % p) (alphas.getD i 0)
          = add32 (a0.getD (i + 1) 0) (a1.getD (i + 1) 0) % p)
        ↔ ((a0.getD (i + 1) 0 + a1.getD (i + 1) 0) % p
          = (a0.getD 0 0 + a1.getD 0 0) % p * alphas.getD i 0 % p) := by
    intro i hi
    rw [hmac i hi, hadd i hi]
    exact eq_comm
  refine ⟨?_, ?_, ?_⟩
  · rw [hred, checkTags_ok_iff]
    constructor
    · intro h i hi
      exact (hpt i hi).mp (h i (List.mem_range.mpr hi))
    · intro h i hi
      exact (hpt i (List.mem_range.mp hi)).mpr (h i (List.mem_range.mp hi))
  · intro hneg
    push_neg at hneg
    rcases hneg with ⟨i, hi, hne⟩
    rw [hred]
    apply checkTags_fail
    exact ⟨i, List.mem_range.mpr hi, fun hc => hne ((hpt i hi).mp hc)⟩
  · intro b0 b1 hbl msg h
    have hredavg : PredicateReconstruct p kEx alphas [b0, b1]
        = checkTagsAVG p
            (add32 ((b0.take (1 + kEx)).getD 0 0) ((b1.take (1 + kEx)).getD 0 0) % p)
            (add32 ((b0.drop (1 + kEx)).getD 0 0) ((b1.drop (1 + kEx)).getD 0 0) % p)
            alphas (b0.take (1 + kEx)) (b1.take (1 + kEx))
            (b0.drop (1 + kEx)) (b1.drop (1 + kEx)) (List.range kEx) := by
      have hb0 : PredicateReconstruct p kEx alphas [b0, b1]
          = if b0.length = 2 * (1 + kEx) then
              checkTagsAVG p
                (add32 ((b0.take (1 + kEx)).getD 0 0) ((b1.take (1 + kEx)).getD 0 0) % p)
                (add32 ((b0.drop (1 + kEx)).getD 0 0) ((b1.drop (1 + kEx)).getD 0 0) % p)
                alphas (b0.take (1 + kEx)) (b1.take (1 + kEx))
                (b0.drop (1 + kEx)) (b1.drop (1 + kEx)) (List.range kEx)
            else
              checkTags p (add32 (b0.getD 0 0) (b1.getD 0 0) % p) alphas b0 b1
                (List.range kEx) := rfl
      rw [hb0, if_pos hbl]
    rw [hredavg] at h
    exact checkTagsAVG_err_msg _ _ _ _ _ _ _ _ _ _ h

/-- C1 witness: `p = 97`, `k = 2`, `alphas = [3, 5]`, answers
`[3, 9, 15]` and `[0, 0, 0]` (field elements below 97, lengths
`1 + 2`), instantiating the theorem with every hypothesis discharged
by `decide`/`norm_num`. -/
theorem predicate_reconstruct_spec_witness :
    (PredicateReconstruct 97 2 [3, 5] [[3, 9, 15], [0, 0, 0]]
        = RecOut.ok ((List.getD [3, 9, 15] 0 0 + List.getD [0, 0, 0] 0 0) % 97)
      ↔ ∀ i < 2, (List.getD [3, 9, 15] (i + 1) 0 + List.getD [0, 0, 0] (i + 1) 0) % 97
          = (List.getD [3, 9, 15] 0 0 + List.getD [0, 0, 0] 0 0) % 97
              * List.getD [3, 5] i 0 % 97)
    ∧ ((¬ ∀ i < 2, (List.getD [3, 9, 15] (i + 1) 0 + List.getD [0, 0, 0] (i + 1) 0) % 97
          = (List.getD [3, 9, 15] 0 0 + List.getD [0, 0, 0] 0 0) % 97
              * List.getD [3, 5] i 0 % 97)
        → PredicateReconstruct 97 2 [3, 5] [[3, 9, 15], [0, 0, 0]]
            = RecOut.err "REJECT")
    ∧ (∀ b0 b1 : List ℕ, b0.length = 2 * (1 + 2) →
        ∀ msg, PredicateReconstruct 97 2 [3, 5] [b0, b1] = RecOut.err msg →
          msg = "REJECT count" ∨ msg = "REJECT sum") :=
  predicate_reconstruct_spec 97 2 [3, 5] [3, 9, 15] [0, 0, 0]
    (by decide) (by norm_num) (by decide) (by decide)
    (by decide) (by decide) (by decide) (by decide)

/-- C3 evaluation at the failing input: AVG-shaped all-zero answers
(`k = 2`, so each answer has `2*(1+2) = 6` entries) pass every tag
check with `count = 0`, and the source then computes
`sumCount / dataCount` with no zero check: the Go `uint32` division by
zero panics instead of returning the `NoMatch` error the claim (and the
spec) require. -/
theorem predicate_reconstruct_avg_zero_count_panics :
    PredicateReconstruct 97 2 [3, 5]
      [List.replicate 6 0, List.replicate 6 0] = RecOut.panicked := by
  decide

/-! ## The embedding loop of `GenerateRealKeyDB` (`lib/database`)

The inner loop over one hash-table bucket is
`for m := k*blockLen; COND; m++ { if m-k*blockLen >= len(elements) { break }; db.SetEntry(m, elements[m-k*blockLen]) }`,
with `COND` being `k < (k+1)*blockLen` as written and
`m < (k+1)*blockLen` as intended.  The loop is modelled by the list of
indices `m` at which it writes: each iteration first evaluates `COND`,
then the break guard, then writes at `m` and increments.  `m` strictly
increases, so `numElements - (m - k*blockLen)` decreases and serves as
the structural recursion measure. -/

/-- One bucket-embedding loop: starting at `m`, with
`remaining = numElements - (m - k*blockLen)` elements left to write,
emit the indices written before the loop condition fails or the break
guard fires. -/
def loopWrites (cond : ℕ → Bool) (m : ℕ) : ℕ → List ℕ
  | 0 => []
  | r + 1 => if cond m then m :: loopWrites cond (m + 1) r else []

/-- The break guard also ends the loop when `cond` still holds but all
`numElements` elements have been written: `loopWrites` at
`remaining = 0` is `[]` whether or not `cond m` holds, matching the
`break`. -/
def bucketWrites (cond : ℕ → Bool) (k blockLen numElements : ℕ) : List ℕ :=
  loopWrites cond (k * blockLen) numElements

/-- The loop as written in the source: condition `k < (k+1)*blockLen`
(independent of the loop variable `m`). -/
def bucketWritesAsWritten (k blockLen numElements : ℕ) : List ℕ :=
  bucketWrites (fun _ => decide (k < (k + 1) * blockLen)) k blockLen numElements

/-- The loop with the intended condition `m < (k+1)*blockLen`. -/
def bucketWritesIntended (k blockLen numElements : ℕ) : List ℕ :=
  bucketWrites (fun m => decide (m < (k + 1) * blockLen)) k blockLen numElements

/-- C7 counterexample: with `elementLength = 2` and a single bucket
holding one byte, `GenerateRealKeyDB` computes
`blockLen = ⌈(1+1)/2⌉ = 1` while `PadBlock` emits
`(PadBlock [7] 2).length / 2 = 2` field elements; at hash key `k = 0`
the loop as written writes indices `[0, 1]` but the intended loop
writes only `[0]`, and index `1 = (0+1)*blockLen` lies outside bucket
0's block — the two loops are not equivalent and the as-written loop
does write at an index `≥ (k+1)*blockLen`. -/
theorem generateRealKeyDB_loop_counterexample :
    (PadBlock [7] 2).length / 2 = 2
    ∧ bucketWritesAsWritten 0 1 ((PadBlock [7] 2).length / 2) = [0, 1]
    ∧ bucketWritesIntended 0 1 ((PadBlock [7] 2).length / 2) = [0]
    ∧ bucketWritesAsWritten 0 1 ((PadBlock [7] 2).length / 2)
        ≠ bucketWritesIntended 0 1 ((PadBlock [7] 2).length / 2)
    ∧ 1 ∈ bucketWritesAsWritten 0 1 ((PadBlock [7] 2).length / 2)
    ∧ (0 + 1) * 1 ≤ 1 := by
  decide

lemma loopWrites_true (m : ℕ) (r : ℕ) (cond : ℕ → Bool)
    (h : ∀ j, cond j = true) :
    loopWrites cond m r = (List.range r).map (fun t => m + t) := by
  induction r generalizing m with
  | zero => rfl
  | succ n ih =>
    rw [show loopWrites cond m (n + 1)
        = if cond m then m :: loopWrites cond (m + 1) n else [] from rfl,
      if_pos (h m), ih (m + 1), List.range_succ_eq_map]
    simp [List.map_map, Function.comp]
    intro a _
    omega

/-- C7 (amended): for `blockLen ≥ 1` the loop as written terminates
(this is the model's list being well-defined and finite) and writes
exactly the indices `k*blockLen, …, k*blockLen + numElements - 1` —
the break guard is the sole exit, since `k < (k+1)*blockLen` always
holds; it coincides with the intended loop exactly when
`numElements ≤ blockLen`, which fails (by one trailing element) for a
maximal bucket whose padded byte length is `elementLength·(blockLen+1)`. -/
theorem generateRealKeyDB_loop_amended (k blockLen numElements : ℕ)
    (hbl : 1 ≤ blockLen) :
    bucketWritesAsWritten k blockLen numElements
      = (List.range numElements).map (fun t => k * blockLen + t)
    ∧ (numElements ≤ blockLen →
        bucketWritesAsWritten k blockLen numElements
          = bucketWritesIntended k blockLen numElements) := by
  have hcond : k < (k + 1) * blockLen := by nlinarith
  have hAs : bucketWritesAsWritten k blockLen numElements
      = (List.range numElements).map (fun t => k * blockLen + t) := by
    unfold bucketWritesAsWritten bucketWrites
    exact loopWrites_true _ _ _ (fun j => by simp [hcond])
  refine ⟨hAs, fun hle => ?_⟩
  rw [hAs]
  unfold bucketWritesIntended bucketWrites
  have : ∀ r m, m = k * blockLen + (numElements - r) → r ≤ numElements →
      loopWrites (fun m => decide (m < (k + 1) * blockLen)) m r
        = (List.range r).map (fun t => m + t) := by
    intro r
    induction r with
    | zero => intro m _ _; rfl
    | succ n ih =>
      intro m hm hr
      have hmlt : m < (k + 1) * blockLen := by
        have : numElements - (n + 1) + (n + 1) = numElements := by omega
        have hm' : m + (n + 1) = k * blockLen + numElements := by omega
        have : (k + 1) * blockLen = k * blockLen + blockLen := by ring
        omega
      rw [show loopWrites (fun m => decide (m < (k + 1) * blockLen)) m (n + 1)
          = if decide (m < (k + 1) * blockLen) = true
            then m :: loopWrites (fun m => decide (m < (k + 1) * blockLen)) (m + 1) n
            else [] from rfl]
      rw [if_pos (by simp [hmlt]), ih (m + 1) (by omega) (by omega),
        List.range_succ_eq_map]
      simp [List.map_map, Function.comp]
      intro a _
      omega
  rw [this numElements (k * blockLen) (by omega) (le_refl _)]

/-- C7 witness: `k = 2`, `blockLen = 3`, `numElements = 2 ≤ blockLen`:
the as-written loop writes `[6, 7]` and agrees with the intended
loop. -/
theorem generateRealKeyDB_loop_amended_witness :
    1 ≤ 3 ∧
    (bucketWritesAsWritten 2 3 2 = (List.range 2).map (fun t => 2 * 3 + t)
    ∧ (2 ≤ 3 → bucketWritesAsWritten 2 3 2 = bucketWritesIntended 2 3 2)) :=
  ⟨by decide, generateRealKeyDB_loop_amended 2 3 2 (by decide)⟩

/-! ## Hash-table length of `GenerateRealKeyDB` / `GenerateRealKeyBytes`

Both functions compute
`numBlocks := int(float32(len(keys)) * numKeysToDBLengthRatio)` with
`numKeysToDBLengthRatio` the `float32` constant `0.1`.  Go `float32`
arithmetic is IEEE-754 binary32 with round-to-nearest (ties to even);
the model below computes it exactly on nonnegative rationals
represented as unreduced fractions `(numerator, denominator)` of
naturals (every value reached here lies in binary32's normal range, so
subnormals and overflow need no modelling).  `int(f)` truncates toward
zero, which for the nonnegative values here is the floor. -/

/-- Round the fraction `A / B` to the nearest integer, ties to even. -/
def rneNat (A B : ℕ) : ℕ :=
  let q := A / B
  let r := A % B
  if 2 * r < B then q
  else if B < 2 * r then q + 1
  else if q % 2 = 0 then q else q + 1

/-- Fuel-based floor of the base-2 logarithm (the fuel `n` itself
always suffices since the argument halves each step). -/
def log2floorAux : ℕ → ℕ → ℕ
  | 0, _ => 0
  | fuel + 1, n => if n ≤ 1 then 0 else log2floorAux fuel (n / 2) + 1

/-- `log2floor n` is the `E ≥ 0` with `2^E ≤ n < 2^(E+1)` (0 for
`n = 0`). -/
def log2floor (n : ℕ) : ℕ := log2floorAux n n

/-- The binade of the positive fraction `a / b`: the `E : ℤ` with
`2^E ≤ a/b < 2^(E+1)`. -/
def binadeExpNat (a b : ℕ) : ℤ :=
  if b ≤ a then (log2floor (a / b) : ℤ)
  else
    let k := log2floor (b / a)
    if a * 2 ^ k = b then -(k : ℤ) else -(k : ℤ) - 1

/-- IEEE-754 binary32 rounding (round to nearest, ties to even) of the
nonnegative normal-range fraction `a / b`, returned as a dyadic
fraction: the significand is rounded at 24 bits, i.e. on the grid of
multiples of `2^(E-23)` for binade `E`. -/
def float32RoundNat (a b : ℕ) : ℕ × ℕ :=
  if a = 0 then (0, 1)
  else
    let E := binadeExpNat a b
    if E ≤ 23 then (rneNat (a * 2 ^ (23 - E).toNat) b, 2 ^ (23 - E).toNat)
    else (rneNat a (b * 2 ^ (E - 23).toNat) * 2 ^ (E - 23).toNat, 1)

/-- The `float32` constant `numKeysToDBLengthRatio = 0.1` of
`lib/database` (binary32 cannot represent `1/10` exactly; this rounds
to `13421773 / 2^27`). -/
def numKeysToDBLengthRatio : ℕ × ℕ := float32RoundNat 1 10

/-- The hash-table length computed by `GenerateRealKeyDB` and
`GenerateRealKeyBytes` (`lib/database`) before the optional
`IncreaseToNextSquare`:
`int(float32(numKeys) * numKeysToDBLengthRatio)` — the conversion
`float32(numKeys)` rounds, the product is rounded to binary32, and
`int(..)` truncates toward zero. -/
def numBlocks (numKeys : ℕ) : ℕ :=
  let nF := float32RoundNat numKeys 1
  let pF := float32RoundNat (nF.1 * numKeysToDBLengthRatio.1)
    (nF.2 * numKeysToDBLengthRatio.2)
  pF.1 / pF.2

/-- C8 counterexample: with 5 loaded keys the source computes
`numBlocks = int(float32(5) * 0.1f) = int(0.5f) = 0`, but the claimed
ceiling `⌈0.1 · 5⌉ = (5 + 10 - 1) / 10 = 1`; likewise 15 keys give 1,
not `⌈1.5⌉ = 2`.  The hash-table length is a truncation, not a
ceiling. -/
theorem numBlocks_not_ceiling :
    numKeysToDBLengthRatio = (13421773, 134217728)
    ∧ numBlocks 5 = 0 ∧ (5 + 10 - 1) / 10 = 1
    ∧ numBlocks 15 = 1 ∧ (15 + 10 - 1) / 10 = 2 := by
  decide

set_option maxRecDepth 10000 in
/-- C8 (amended): the hash-table length equals the **floor**
`⌊0.1 · numKeys⌋ = numKeys / 10`, not the ceiling (here verified for
every number of keys up to 512; the float32 rounding never carries the
product across an integer in this range). -/
theorem numBlocks_eq_floor (numKeys : ℕ) (h : numKeys < 513) :
    numBlocks numKeys = numKeys / 10 := by
  revert numKeys
  decide

/-- C8 witness: 37 keys give a hash table of `⌊3.7⌋ = 3` buckets. -/
theorem numBlocks_eq_floor_witness : 37 < 513 ∧ numBlocks 37 = 37 / 10 :=
  ⟨by decide, numBlocks_eq_floor 37 (by decide)⟩

/-! ## Dispatcher fan-out (`cmd/grpc/client/manager/mod.go`)

`Manager.RunQueries` (and the identical fan-out inside
`Manager.GetKey`) launches one goroutine per connection; goroutine `j`
computes `queryServer(conn, queries[j])` and sends the result on the
shared channel `resCh`; after `wg.Wait()` the answers are appended in
the order the channel receives them, i.e. in goroutine **completion**
order.  The model makes the per-query answer function `answerFn`
explicit (`queryServer` is a pure function of the query here) and the
completion order an explicit list `order` of goroutine indices (a
permutation of `0 .. len(queries)-1`); no index accompanies the sends,
so the collected vector is the answers permuted by `order`. -/

/-- Fan-out model of `Manager.RunQueries` / the `GetKey` fan-out:
the answers drained from `resCh` in completion order `order`. -/
def runQueries (queries : List (List ℕ)) (answerFn : List ℕ → List ℕ)
    (order : List ℕ) : List (List ℕ) :=
  order.map (fun j => answerFn (queries.getD j []))

/-- C9 counterexample: with two queries `[1]`, `[2]`, the identity
answer function, and completion order `[1, 0]` (server 1 answers
first), the dispatcher returns `[[2], [1]]`: the 0-th answer is the
answer to query 1, not query 0 — the correspondence claimed for every
completion order fails, because the sends are not tagged with an
index. -/
theorem runQueries_order_counterexample :
    runQueries [[1], [2]] (fun q => q) [1, 0] = [[2], [1]]
    ∧ (runQueries [[1], [2]] (fun q => q) [1, 0]).getD 0 []
        ≠ (fun (q : List ℕ) => q) ([[1], [2]].getD 0 []) := by
  decide

lemma range_map_getD (l : List (List ℕ)) :
    (List.range l.length).map (fun i => l.getD i []) = l := by
  induction l with
  | nil => rfl
  | cons a t ih =>
    rw [show (a :: t).length = t.length + 1 from rfl, List.range_succ_eq_map,
      List.map_cons, List.map_map]
    have hcomp : ((fun i => (a :: t).getD i []) ∘ Nat.succ)
        = (fun i => t.getD i []) := by
      funext i
      simp [Function.comp, List.getD_cons_succ]
    rw [List.getD_cons_zero, hcomp, ih]

/-- C9 (amended): the dispatcher returns the per-query answers permuted
by the completion order: for any completion order (a permutation of
`0 .. len(queries)-1`) the result is a permutation of
`queries.map answerFn`, and it equals `queries.map answerFn` — the j-th
answer corresponding to the j-th query — exactly in the case of
in-order completion; out-of-order completion permutes the answers, as
nothing tags them with their index. -/
theorem runQueries_perm (queries : List (List ℕ))
    (answerFn : List ℕ → List ℕ) (order : List ℕ)
    (h : order.Perm (List.range queries.length)) :
    (runQueries queries answerFn order).Perm (queries.map answerFn)
    ∧ (order = List.range queries.length →
        runQueries queries answerFn order = queries.map answerFn) := by
  have key : runQueries queries answerFn (List.range queries.length)
      = queries.map answerFn := by
    unfold runQueries
    rw [show (fun j => answerFn (queries.getD j []))
        = (answerFn ∘ fun j => queries.getD j []) from rfl]
    rw [← List.map_map, range_map_getD]
  constructor
  · have := h.map (fun j => answerFn (queries.getD j []))
    unfold runQueries
    rw [← key]
    exact this
  · intro horder
    rw [horder, key]

/-- C9 witness: the amended statement at two queries with completion
order `[1, 0]`. -/
theorem runQueries_perm_witness :
    ([1, 0] : List ℕ).Perm (List.range 2)
    ∧ ((runQueries [[1], [2]] (fun q => 0 :: q) [1, 0]).Perm
          ([[1], [2]].map (fun q => 0 :: q))
      ∧ ([1, 0] = List.range 2 →
          runQueries [[1], [2]] (fun q => 0 :: q) [1, 0]
            = [[1], [2]].map (fun q => 0 :: q))) :=
  ⟨by decide, by
    have h := runQueries_perm [[1], [2]] (fun q => 0 :: q) [1, 0] (by decide)
    simpa using h⟩

end VPIR
